import Mathlib

/-!
Shallow embedding of the credential-rotation core of the
`opencode-copilot-multi-auth` plugin: the in-memory health registry and
rotation selector (`src/rotation.ts`, inlined in `src/fetch.ts` of the
bundle), the retry-dispatch wrapper (`copilotFetch` in `src/fetch.ts`),
and the active prober (`probe.ts`).

Conventions of the embedding:
* JavaScript numbers that hold timestamps, scores and durations are
  modelled as `Int` (all values the code produces are integers).
* `Date.now()` is modelled by an explicit `now : Int` parameter; a single
  operation (one registry call, one dispatch call) runs at one instant.
* The mutable `Map<string, AccountHealth>` registry is modelled as a
  function `String → Option AccountHealth`, threaded through every
  operation in state-passing style.
* Network transports are pluggable in the source (`fetch` is the ambient
  platform function); they are modelled as explicit arguments: the
  dispatch transport is a function from attempt index to response, probe
  responses are passed in directly.  The string-level parsing done by
  `parseRetryAfter` (JS `Number` / `Date.parse`) is host-library
  behaviour and is abstracted as an arbitrary function
  `parseRA : Response → Option Int`; all dispatch theorems are quantified
  over it.
* `JSON.stringify({ error: msg })` and `Date.toISOString()` are abstracted
  by the constructors of `Body` and `ErrMsg`, keeping the distinct message
  shapes distinguishable.
-/

/-- `Account` from `types.ts` (`part_005`): id, label, domain, token,
`added_at`, `priority` (lower = higher priority). -/
structure Account where
  id : String
  label : String
  domain : String
  token : String
  added_at : Int
  priority : Int
deriving DecidableEq, Repr

/-- `AccountHealth` from `types.ts` (`part_005`). -/
structure AccountHealth where
  id : String
  score : Int
  rate_limited_until : Int
  last_success : Int
  last_failure : Int
  consecutive_failures : Int
deriving DecidableEq, Repr

/-- `DEFAULT_RETRY_AFTER_MS` from `types.ts`. -/
def DEFAULT_RETRY_AFTER_MS : Int := 60000

/-- `MAX_RETRY_AFTER_MS` from `types.ts`. -/
def MAX_RETRY_AFTER_MS : Int := 600000

/-- The registry `const health = new Map<string, AccountHealth>()`,
modelled as a lookup function. -/
def HealthMap : Type := String → Option AccountHealth

/-- The registry before any credential has been touched. -/
def emptyHealth : HealthMap := fun _ => none

/-- The fresh record `getHealth` creates on first touch. -/
def freshHealth (id : String) : AccountHealth :=
  { id := id, score := 100, rate_limited_until := 0,
    last_success := 0, last_failure := 0, consecutive_failures := 0 }

/-- `health.set(id, h)` (also models in-place mutation of the record that
is stored under key `id`). -/
def setHealth (m : HealthMap) (id : String) (h : AccountHealth) : HealthMap :=
  fun x => if x = id then some h else m x

/-- `getHealth(id)` from `rotation.ts`: return the existing record, or
create (and store) a fresh one. -/
def getHealth (m : HealthMap) (id : String) : AccountHealth × HealthMap :=
  match m id with
  | some h => (h, m)
  | none => (freshHealth id, setHealth m id (freshHealth id))

/-- The record the registry associates to `id` (existing, or the fresh one
`getHealth` would create). -/
def recordOf (m : HealthMap) (id : String) : AccountHealth :=
  (m id).getD (freshHealth id)

/-- `isAvailable(h)` from `rotation.ts`: state-passing version returning
the (possibly mutated) record. -/
def isAvailable (now : Int) (h : AccountHealth) : Bool × AccountHealth :=
  if h.rate_limited_until = 0 then (true, h)
  else if now ≥ h.rate_limited_until then
    (true, { h with rate_limited_until := 0, score := min 100 (h.score + 10) })
  else (false, h)

/-- Pure availability predicate: the boolean `isAvailable` computes,
without the write-back. -/
def availPure (now : Int) (h : AccountHealth) : Bool :=
  decide (h.rate_limited_until = 0) || decide (h.rate_limited_until ≤ now)

/-- `pick(excludeIds)` from `rotation.ts`, taking the credential list (the
result of `list()`, ascending priority) as an argument.  Walks the list,
skips excluded ids, returns the first available credential with its
record; threads the registry. -/
def pick (accounts : List Account) (excl : List String) (now : Int)
    (m : HealthMap) : Option (Account × AccountHealth) × HealthMap :=
  match accounts with
  | [] => (none, m)
  | a :: rest =>
    if a.id ∈ excl then pick rest excl now m
    else
      let g := getHealth m a.id
      let av := isAvailable now g.1
      let m2 := setHealth g.2 a.id av.2
      if av.1 then (some (a, av.2), m2) else pick rest excl now m2

/-- `markRateLimited(id, retryAfterMs)` from `rotation.ts`. -/
def markRateLimited (now : Int) (id : String) (retryAfterMs : Option Int)
    (m : HealthMap) : HealthMap :=
  let g := getHealth m id
  let h := g.1
  let delay := min (retryAfterMs.getD DEFAULT_RETRY_AFTER_MS) MAX_RETRY_AFTER_MS
  setHealth g.2 id
    { h with rate_limited_until := now + delay,
             score := max 0 (h.score - 10),
             last_failure := now,
             consecutive_failures := h.consecutive_failures + 1 }

/-- `markSuccess(id)` from `rotation.ts`. -/
def markSuccess (now : Int) (id : String) (m : HealthMap) : HealthMap :=
  let g := getHealth m id
  let h := g.1
  setHealth g.2 id
    { h with score := min 100 (h.score + 1),
             last_success := now,
             consecutive_failures := 0 }

/-- The loop body of `allRateLimited()`: scan the accounts tracking the
earliest `rate_limited_until` (`none` models the initial `Infinity`).
Result `none` models the early `return false` on an available credential;
`some earliest` is the value after the full scan. -/
def arlScan (now : Int) (accounts : List Account) (m : HealthMap)
    (earliest : Option Int) : Option (Option Int) × HealthMap :=
  match accounts with
  | [] => (some earliest, m)
  | a :: rest =>
    let g := getHealth m a.id
    let av := isAvailable now g.1
    let m2 := setHealth g.2 a.id av.2
    if av.1 then (none, m2)
    else
      let e' := match earliest with
        | none => some g.1.rate_limited_until
        | some e =>
          if g.1.rate_limited_until < e then some g.1.rate_limited_until
          else some e
      arlScan now rest m2 e'

/-- `allRateLimited()` from `rotation.ts`: `none` models `false`,
`some t` the earliest recovery time. -/
def allRateLimited (accounts : List Account) (now : Int) (m : HealthMap) :
    Option Int × HealthMap :=
  match accounts with
  | [] => (none, m)
  | _ :: _ =>
    match arlScan now accounts m none with
    | (none, m') => (none, m')
    | (some none, m') => (none, m')
    | (some (some e), m') => (some e, m')

/-- The distinct error-message shapes the dispatch wrapper synthesizes
(`fetch.ts` lines 99–101 and 123–125); the ISO rendering of the recovery
time is kept as the payload of `allLimited`. -/
inductive ErrMsg where
  /-- "All accounts rate limited. Earliest recovery: \<iso time\>" -/
  | allLimited (recovery : Int)
  /-- "No GitHub Copilot accounts configured" -/
  | noAccounts
  /-- "All accounts exhausted" -/
  | allExhausted
deriving DecidableEq, Repr

/-- A response body: either an opaque transport body, or the serialized
`{ error: msg }` JSON the wrapper synthesizes. -/
inductive Body where
  | raw (s : String)
  | errJson (msg : ErrMsg)
deriving DecidableEq, Repr

/-- An HTTP response as the dispatch wrapper observes and produces it. -/
structure Response where
  status : Nat
  headers : List (String × String)
  body : Body
deriving DecidableEq, Repr

/-- `new Response(JSON.stringify({error: msg}), { status: 429, headers:
{ "Content-Type": "application/json" } })`. -/
def synthResponse (msg : ErrMsg) : Response :=
  { status := 429, headers := [("Content-Type", "application/json")],
    body := Body.errJson msg }

/-- The `recovery ? allLimited : fallback` message selection used on both
synthesized paths of `copilotFetch`. -/
def exhaustMsg (recovery : Option Int) (fallback : ErrMsg) : ErrMsg :=
  match recovery with
  | some r => ErrMsg.allLimited r
  | none => fallback

/-- Outcome of the `while (current)` loop of `copilotFetch`:
`res = some (response, usedId)` is the pass-through success path,
`res = none` means `pick(tried)` returned none (pool exhausted). -/
structure LoopOut where
  res : Option (Response × String)
  health : HealthMap
  tried : List String

/-- The `while (current)` loop of `copilotFetch` (`fetch.ts` lines
105–120).  `transport n` is the response of the `n`-th `fetch` call
(0-based); `parseRA` abstracts `parseRetryAfter`.  The `tried` set is the
list of attempted ids in insertion order, so the next attempt index is
`tried.length`.  Recursion is on explicit fuel; `none` means the fuel ran
out (shown impossible below for fuel = pool size). -/
def fetchLoop (accounts : List Account) (transport : Nat → Response)
    (parseRA : Response → Option Int) (now : Int) (fuel : Nat)
    (cur : Account × AccountHealth) (m : HealthMap) (tried : List String) :
    Option LoopOut :=
  match fuel with
  | 0 => none
  | fuel' + 1 =>
    let a := cur.1
    let tried' := tried ++ [a.id]
    let response := transport tried.length
    if response.status ≠ 429 then
      some ⟨some (response, a.id), markSuccess now a.id m, tried'⟩
    else
      let m1 := markRateLimited now a.id (parseRA response) m
      match pick accounts tried' now m1 with
      | (none, m2) => some ⟨none, m2, tried'⟩
      | (some next, m2) =>
        fetchLoop accounts transport parseRA now fuel' next m2 tried'

/-- Result of one `copilotFetch` call: the returned response, the id of
the credential whose response was passed through (`none` when the
response was synthesized), the final registry and the tried set. -/
structure FetchOut where
  response : Response
  usedId : Option String
  health : HealthMap
  tried : List String

/-- `copilotFetch` from `fetch.ts` (lines 91–127).  The account list is
the result of `list()` (ascending priority); `transport`/`parseRA` as in
`fetchLoop`.  Returns `none` only if the loop fuel (= pool size) runs
out, which `copilotFetch_total` below proves never happens. -/
def copilotFetch (accounts : List Account) (transport : Nat → Response)
    (parseRA : Response → Option Int) (now : Int) (m : HealthMap) :
    Option FetchOut :=
  match pick accounts [] now m with
  | (none, m0) =>
    let r := allRateLimited accounts now m0
    some ⟨synthResponse (exhaustMsg r.1 ErrMsg.noAccounts), none, r.2, []⟩
  | (some cur, m0) =>
    match fetchLoop accounts transport parseRA now accounts.length cur m0 [] with
    | none => none
    | some lo =>
      match lo.res with
      | some (resp, uid) => some ⟨resp, some uid, lo.health, lo.tried⟩
      | none =>
        let r := allRateLimited accounts now lo.health
        some ⟨synthResponse (exhaustMsg r.1 ErrMsg.allExhausted), none, r.2, lo.tried⟩

/-! ### Active prober (`probe.ts`, `part_008`) -/

/-- Probe outcome classification. -/
inductive ProbeStatus where
  | ok
  | rate_limited
  | quota_exhausted
  | error
deriving DecidableEq, Repr

/-- Which tier produced the result. -/
inductive ProbeMethod where
  | token_exchange
  | user_api
deriving DecidableEq, Repr

/-- `ProbeResult` from `probe.ts`. -/
structure ProbeResult where
  id : String
  status : ProbeStatus
  httpStatus : Option Nat
  retryAfterMs : Option Int
  quotaResetDate : Option Int
  username : Option String
  method : ProbeMethod
deriving DecidableEq, Repr

/-- The JSON fields the tier-1 handler reads from a response body. -/
structure ProbeJson where
  /-- `limited_user_quotas`, with its `chat` and `completions` fields
  (`none` field = absent). -/
  limited_user_quotas : Option (Option Int × Option Int)
  /-- `limited_user_reset_date` (unix seconds); `none` = absent or null. -/
  limited_user_reset_date : Option Int
  /-- `message` (used by the 403 branch). -/
  message : Option String
deriving DecidableEq, Repr

/-- A tier-1 response: HTTP status, the already-parsed `retry-after`
value (see `parseRetryAfter`), and the JSON body (`none` = body does not
parse). -/
structure Tier1Response where
  status : Nat
  retryAfter : Option Int
  body : Option ProbeJson
deriving DecidableEq, Repr

/-- `chat !== undefined && chat <= 0` for one quota counter. -/
def quotaDepleted : Option Int → Bool
  | some c => decide (c ≤ 0)
  | none => false

/-- `body.limited_user_reset_date ? body.limited_user_reset_date * 1000 :
undefined` — note JS truthiness: a 0 reset date gives no reset. -/
def quotaReset (j : ProbeJson) : Option Int :=
  match j.limited_user_reset_date with
  | some v => if v ≠ 0 then some (v * 1000) else none
  | none => none

/-- `resetDate ? Math.max(0, resetDate - Date.now()) : undefined`. -/
def quotaRetryAfter (j : ProbeJson) (now : Int) : Option Int :=
  match quotaReset j with
  | some d => some (max 0 (d - now))
  | none => none

/-- `body.message?.startsWith("API rate limit exceeded")` of the tier-1
403 branch (false on a missing message or an unparsable body). -/
def rateLimitMsg (body : Option ProbeJson) : Bool :=
  match body with
  | some j =>
    match j.message with
    | some s => s.startsWith "API rate limit exceeded"
    | none => false
  | none => false

/-- `tryTokenExchange` from `probe.ts` (lines 52–127), with the network
exchange replaced by the observed response (`none` = network error).
Returns `none` to mean the JS `null` (fall through to tier 2). -/
def tryTokenExchange (a : Account) (resp : Option Tier1Response)
    (now : Int) (m : HealthMap) : Option ProbeResult × HealthMap :=
  match resp with
  | none => (none, m)
  | some r =>
    if r.status = 404 then (none, m)
    else if r.status = 429 then
      (some { id := a.id, status := ProbeStatus.rate_limited,
              httpStatus := some 429, retryAfterMs := r.retryAfter,
              quotaResetDate := none, username := none,
              method := ProbeMethod.token_exchange },
       markRateLimited now a.id r.retryAfter m)
    else if r.status = 200 then
      match r.body with
      | some j =>
        match j.limited_user_quotas with
        | some (chat, completions) =>
          if quotaDepleted chat && quotaDepleted completions then
            (some { id := a.id, status := ProbeStatus.quota_exhausted,
                    httpStatus := some 200,
                    retryAfterMs := quotaRetryAfter j now,
                    quotaResetDate := quotaReset j, username := none,
                    method := ProbeMethod.token_exchange },
             markRateLimited now a.id (quotaRetryAfter j now) m)
          else
            (some { id := a.id, status := ProbeStatus.ok,
                    httpStatus := some 200, retryAfterMs := none,
                    quotaResetDate := none, username := none,
                    method := ProbeMethod.token_exchange },
             markSuccess now a.id m)
        | none =>
          (some { id := a.id, status := ProbeStatus.ok,
                  httpStatus := some 200, retryAfterMs := none,
                  quotaResetDate := none, username := none,
                  method := ProbeMethod.token_exchange },
           markSuccess now a.id m)
      | none =>
        (some { id := a.id, status := ProbeStatus.ok,
                httpStatus := some 200, retryAfterMs := none,
                quotaResetDate := none, username := none,
                method := ProbeMethod.token_exchange },
         markSuccess now a.id m)
    else if r.status = 403 then
      if rateLimitMsg r.body then
        (some { id := a.id, status := ProbeStatus.rate_limited,
                httpStatus := some 403, retryAfterMs := none,
                quotaResetDate := none, username := none,
                method := ProbeMethod.token_exchange },
         markRateLimited now a.id none m)
      else
        (some { id := a.id, status := ProbeStatus.error,
                httpStatus := some 403, retryAfterMs := none,
                quotaResetDate := none, username := none,
                method := ProbeMethod.token_exchange }, m)
    else
      (some { id := a.id, status := ProbeStatus.error,
              httpStatus := some r.status, retryAfterMs := none,
              quotaResetDate := none, username := none,
              method := ProbeMethod.token_exchange }, m)

/-- A tier-2 (`/user` API) response: status and the parsed body's `login`
field (`none` = body does not parse; `some l` = parsed, `login = l`,
where `some ""` models an empty login string, falsy in JS). -/
structure Tier2Response where
  status : Nat
  login : Option (Option String)
deriving DecidableEq, Repr

/-- `tryUserApi` from `probe.ts` (lines 130–170), network exchange
replaced by the observed response (`none` = network error). -/
def tryUserApi (a : Account) (resp : Option Tier2Response)
    (now : Int) (m : HealthMap) : ProbeResult × HealthMap :=
  match resp with
  | none =>
    ({ id := a.id, status := ProbeStatus.error, httpStatus := none,
       retryAfterMs := none, quotaResetDate := none, username := none,
       method := ProbeMethod.user_api }, m)
  | some r =>
    if r.status = 200 then
      let username : Option String :=
        match r.login with
        | some (some l) => if l = "" then none else some l
        | _ => none
      ({ id := a.id, status := ProbeStatus.ok, httpStatus := some 200,
         retryAfterMs := none, quotaResetDate := none, username := username,
         method := ProbeMethod.user_api }, markSuccess now a.id m)
    else if r.status = 401 then
      ({ id := a.id, status := ProbeStatus.error, httpStatus := some 401,
         retryAfterMs := none, quotaResetDate := none, username := none,
         method := ProbeMethod.user_api }, m)
    else if r.status = 403 then
      ({ id := a.id, status := ProbeStatus.rate_limited, httpStatus := some 403,
         retryAfterMs := none, quotaResetDate := none, username := none,
         method := ProbeMethod.user_api }, markRateLimited now a.id none m)
    else
      ({ id := a.id, status := ProbeStatus.error, httpStatus := some r.status,
         retryAfterMs := none, quotaResetDate := none, username := none,
         method := ProbeMethod.user_api }, m)

/-- The generic filler `probeAll` uses for a rejected task. -/
def genericError (id : String) : ProbeResult :=
  { id := id, status := ProbeStatus.error, httpStatus := none,
    retryAfterMs := none, quotaResetDate := none, username := none,
    method := ProbeMethod.token_exchange }

/-- `probeAll` from `probe.ts` (lines 188–200).  The per-credential tasks
run concurrently over the network; their settled outcomes are passed in
as `settled`, index-aligned with `accounts` exactly as
`Promise.allSettled` aligns its result array (`settled[i] = none` models
a rejected promise).  The JS `Map` built by insertion is modelled as the
association list of its insertions. -/
def probeAll (accounts : List Account) (settled : List (Option ProbeResult)) :
    List (String × ProbeResult) :=
  (accounts.zip settled).map
    (fun p => (p.1.id, p.2.getD (genericError p.1.id)))

/-! ### Concrete fixtures used by scenario theorems and witnesses -/

/-- Test credential "A", priority 0. -/
def acctA : Account :=
  { id := "A", label := "a", domain := "github.com", token := "tokA",
    added_at := 0, priority := 0 }

/-- Test credential "B", priority 1. -/
def acctB : Account :=
  { id := "B", label := "b", domain := "github.com", token := "tokB",
    added_at := 0, priority := 1 }

/-- A 200 transport response with recognizable headers and body. -/
def resp200 : Response := { status := 200, headers := [("x", "y")], body := Body.raw "okbody" }

/-- A 429 transport response. -/
def resp429 : Response := { status := 429, headers := [], body := Body.raw "limited" }

/-- A 401 transport response. -/
def resp401 : Response := { status := 401, headers := [], body := Body.raw "unauthorized" }

/-- A retry-after parser that finds no header. -/
def praNone : Response → Option Int := fun _ => none

/-- A retry-after parser that reads zero milliseconds. -/
def praZero : Response → Option Int := fun _ => some 0

/-- Transport of the two-credential failover scenario: 429 on the first
call, 200 on the second. -/
def tr429then200 : Nat → Response := fun i => if i = 0 then resp429 else resp200

/-- Transport that always throttles. -/
def trAlways429 : Nat → Response := fun _ => resp429

/-- Transport that always returns 401. -/
def trAlways401 : Nat → Response := fun _ => resp401

-- Sanity checks of the embedding on concrete values.
example :
    (copilotFetch [acctA, acctB] tr429then200 praNone 1000 emptyHealth).map
      (fun o => (o.response, o.usedId, o.tried))
      = some (resp200, some "B", ["A", "B"]) := by decide
example :
    (copilotFetch [acctA, acctB] trAlways429 praNone 1000 emptyHealth).map
      (fun o => (o.response.body, o.usedId, o.tried))
      = some (Body.errJson (ErrMsg.allLimited 61000), none, ["A", "B"]) := by decide
example :
    (copilotFetch [acctA] trAlways429 praZero 1000 emptyHealth).map
      (fun o => (o.response.body, o.tried))
      = some (Body.errJson ErrMsg.allExhausted, ["A"]) := by decide
example :
    (copilotFetch [] trAlways429 praNone 1000 emptyHealth).map
      (fun o => (o.response.body, o.usedId))
      = some (Body.errJson ErrMsg.noAccounts, none) := by decide
example : (pick [] [] 0 emptyHealth).1 = none := by rfl
example :
    (pick [acctA] [] 5 emptyHealth).1 = some (acctA, freshHealth "A") := by rfl
example :
    (recordOf (markRateLimited 1000 "A" (some 1) emptyHealth) "A").rate_limited_until
      = 1001 := by rfl
example :
    (recordOf (markRateLimited 1000 "A" none emptyHealth) "A").rate_limited_until
      = 61000 := by rfl

/-! ### Registry lemmas -/

theorem getHealth_fst (m : HealthMap) (id : String) :
    (getHealth m id).1 = recordOf m id := by
  unfold getHealth recordOf
  cases m id <;> rfl

theorem getHealth_snd_apply (m : HealthMap) (id x : String) :
    (getHealth m id).2 x = if x = id then some (recordOf m id) else m x := by
  unfold getHealth recordOf setHealth
  cases hm : m id with
  | some h =>
    simp only [Option.getD]
    split
    · next hx => rw [hx, hm]
    · rfl
  | none => rfl

theorem setHealth_apply (m : HealthMap) (id : String) (h : AccountHealth)
    (x : String) : setHealth m id h x = if x = id then some h else m x := rfl

theorem recordOf_setHealth_same (m : HealthMap) (id : String)
    (h : AccountHealth) : recordOf (setHealth m id h) id = h := by
  unfold recordOf setHealth
  simp

theorem recordOf_setHealth_ne (m : HealthMap) (id : String)
    (h : AccountHealth) (x : String) (hx : x ≠ id) :
    recordOf (setHealth m id h) x = recordOf m x := by
  unfold recordOf setHealth
  simp [hx]

/-- The boolean `isAvailable` returns is the pure availability
predicate. -/
theorem isAvailable_fst (now : Int) (h : AccountHealth) :
    (isAvailable now h).1 = availPure now h := by
  by_cases h0 : h.rate_limited_until = 0
  · simp [isAvailable, availPure, h0]
  · by_cases hge : h.rate_limited_until ≤ now
    · simp [isAvailable, availPure, h0, hge, ge_iff_le]
    · simp [isAvailable, availPure, h0, hge, ge_iff_le]

/-- On the unavailable branch `isAvailable` does not touch the record. -/
theorem isAvailable_snd_of_unavailable (now : Int) (h : AccountHealth)
    (hu : availPure now h = false) : isAvailable now h = (false, h) := by
  unfold availPure at hu
  simp only [Bool.or_eq_false_iff, decide_eq_false_iff_not] at hu
  unfold isAvailable
  simp only [if_neg hu.1]
  rw [if_neg]
  intro hge
  exact hu.2 hge

/-- A record the registry has never stored is available (fresh records
have no rate-limit window). -/
theorem availPure_freshHealth (now : Int) (id : String) :
    availPure now (freshHealth id) = true := by
  unfold availPure freshHealth
  simp

/-- If the record associated to `id` is unavailable, the registry
actually stores it (otherwise the fresh default would be available). -/
theorem unavailable_mem (now : Int) (m : HealthMap) (id : String)
    (hu : availPure now (recordOf m id) = false) :
    m id = some (recordOf m id) := by
  unfold recordOf at *
  cases hm : m id with
  | some h => simp [hm]
  | none =>
    rw [hm] at hu
    simp only [Option.getD_none] at hu
    rw [availPure_freshHealth] at hu
    cases hu

/-- Checking an unavailable credential leaves the registry unchanged:
the step `setHealth (getHealth m id).2 id (isAvailable now h).2` writes
back exactly the record that was already stored. -/
theorem unavailable_step_map_eq (now : Int) (m : HealthMap) (id : String)
    (hu : availPure now (recordOf m id) = false) :
    setHealth (getHealth m id).2 id (isAvailable now (getHealth m id).1).2 = m := by
  have hm := unavailable_mem now m id hu
  have hfst : (getHealth m id).1 = recordOf m id := getHealth_fst m id
  have hav : isAvailable now (getHealth m id).1 = (false, recordOf m id) := by
    rw [hfst]; exact isAvailable_snd_of_unavailable now _ hu
  funext x
  rw [setHealth_apply, hav, getHealth_snd_apply]
  by_cases hx : x = id
  · simp [hx, hm]
  · simp [hx]

/-! ### `pick` characterization -/

/-- Soundness of `pick`: a returned credential is in the list, is not
excluded, is available, and comes with the written-back health record;
moreover everything before it in the list is excluded or unavailable. -/
theorem pick_some_spec (excl : List String) (now : Int) :
    ∀ (accounts : List Account) (m : HealthMap) (b : Account)
      (h' : AccountHealth),
    (pick accounts excl now m).1 = some (b, h') →
    b ∈ accounts ∧ b.id ∉ excl ∧ availPure now (recordOf m b.id) = true ∧
      h' = (isAvailable now (recordOf m b.id)).2 ∧
      ∃ pre post, accounts = pre ++ b :: post ∧
        ∀ c ∈ pre, c.id ∈ excl ∨ availPure now (recordOf m c.id) = false := by
  intro accounts
  induction accounts with
  | nil => intro m b h' hp; simp [pick] at hp
  | cons a rest ih =>
    intro m b h' hp
    rw [pick] at hp
    by_cases hex : a.id ∈ excl
    · rw [if_pos hex] at hp
      obtain ⟨hmem, hnex, hav, hh', pre, post, hsplit, hpre⟩ := ih m b h' hp
      exact ⟨List.mem_cons_of_mem a hmem, hnex, hav, hh',
        a :: pre, post, by rw [hsplit, List.cons_append], by
          intro c hc
          rcases List.mem_cons.mp hc with hc | hc
          · exact Or.inl (hc ▸ hex)
          · exact hpre c hc⟩
    · rw [if_neg hex] at hp
      simp only at hp
      by_cases hav : availPure now (recordOf m a.id) = true
      · have havb : (isAvailable now (getHealth m a.id).1).1 = true := by
          rw [isAvailable_fst, getHealth_fst]; exact hav
        rw [if_pos havb] at hp
        simp only [Option.some.injEq, Prod.mk.injEq] at hp
        obtain ⟨hpa, hph⟩ := hp
        subst hpa
        refine ⟨List.mem_cons_self a rest, hex, hav, ?_, ⟨[], rest, rfl, by simp⟩⟩
        rw [← hph, getHealth_fst]
      · have hav' : availPure now (recordOf m a.id) = false := by
          simpa using hav
        have havb : (isAvailable now (getHealth m a.id).1).1 = false := by
          rw [isAvailable_fst, getHealth_fst]; exact hav'
        rw [if_neg (by simp [havb])] at hp
        rw [unavailable_step_map_eq now m a.id hav'] at hp
        obtain ⟨hmem, hnex, havm, hh', pre, post, hsplit, hpre⟩ := ih m b h' hp
        exact ⟨List.mem_cons_of_mem a hmem, hnex, havm, hh',
          a :: pre, post, by rw [hsplit, List.cons_append], by
            intro c hc
            rcases List.mem_cons.mp hc with hc | hc
            · exact Or.inr (hc ▸ hav')
            · exact hpre c hc⟩

/-- `pick` returns none exactly when every credential is excluded or
unavailable. -/
theorem pick_none_iff (excl : List String) (now : Int) :
    ∀ (accounts : List Account) (m : HealthMap),
    (pick accounts excl now m).1 = none ↔
      ∀ c ∈ accounts, c.id ∈ excl ∨ availPure now (recordOf m c.id) = false := by
  intro accounts
  induction accounts with
  | nil => intro m; simp [pick]
  | cons a rest ih =>
    intro m
    rw [pick]
    by_cases hex : a.id ∈ excl
    · rw [if_pos hex]
      rw [ih m]
      constructor
      · intro hall c hc
        rcases List.mem_cons.mp hc with hc | hc
        · exact Or.inl (hc ▸ hex)
        · exact hall c hc
      · intro hall c hc
        exact hall c (List.mem_cons_of_mem a hc)
    · rw [if_neg hex]
      simp only
      by_cases hav : availPure now (recordOf m a.id) = true
      · have havb : (isAvailable now (getHealth m a.id).1).1 = true := by
          rw [isAvailable_fst, getHealth_fst]; exact hav
        rw [if_pos havb]
        constructor
        · intro hfalse; cases hfalse
        · intro hall
          rcases hall a (List.mem_cons_self a rest) with hc | hc
          · exact absurd hc hex
          · rw [hav] at hc; cases hc
      · have hav' : availPure now (recordOf m a.id) = false := by
          simpa using hav
        have havb : (isAvailable now (getHealth m a.id).1).1 = false := by
          rw [isAvailable_fst, getHealth_fst]; exact hav'
        rw [if_neg (by simp [havb])]
        rw [unavailable_step_map_eq now m a.id hav', ih m]
        constructor
        · intro hall c hc
          rcases List.mem_cons.mp hc with hc | hc
          · exact Or.inr (hc ▸ hav')
          · exact hall c hc
        · intro hall c hc
          exact hall c (List.mem_cons_of_mem a hc)

/-- C1: For every priority-ordered credential list and every exclusion
set, `pick` returns the available credential with the lowest priority
value among those not in the exclusion set (together with its health
record), and returns none exactly when every credential is either
excluded or unavailable. -/
theorem pick_returns_lowest_priority_available (accounts : List Account)
    (excl : List String) (now : Int) (m : HealthMap)
    (hsorted : accounts.Pairwise (fun x y => x.priority ≤ y.priority)) :
    (∀ b h', (pick accounts excl now m).1 = some (b, h') →
      b ∈ accounts ∧ b.id ∉ excl ∧ availPure now (recordOf m b.id) = true ∧
        h' = (isAvailable now (recordOf m b.id)).2 ∧
        ∀ c ∈ accounts, c.id ∉ excl →
          availPure now (recordOf m c.id) = true → b.priority ≤ c.priority)
    ∧ ((pick accounts excl now m).1 = none ↔
        ∀ c ∈ accounts, c.id ∈ excl ∨ availPure now (recordOf m c.id) = false) := by
  constructor
  · intro b h' hp
    obtain ⟨hmem, hnex, hav, hh', pre, post, hsplit, hpre⟩ :=
      pick_some_spec excl now accounts m b h' hp
    refine ⟨hmem, hnex, hav, hh', ?_⟩
    intro c hc hcex hcav
    subst hsplit
    rcases List.mem_append.mp hc with hcpre | hcbp
    · rcases hpre c hcpre with h | h
      · exact absurd h hcex
      · rw [hcav] at h; cases h
    · rcases List.mem_cons.mp hcbp with rfl | hcpost
      · exact le_refl _
      · have hbp := (List.pairwise_append.mp hsorted).2.1
        exact (List.pairwise_cons.mp hbp).1 c hcpost
  · exact pick_none_iff excl now accounts m

/-- Witness for C1 at a concrete two-credential pool. -/
theorem pick_returns_lowest_priority_available_witness :
    ((pick [acctA, acctB] ["A"] 0 emptyHealth).1 = some (acctB, freshHealth "B")) ∧
    ((∀ b h', (pick [acctA, acctB] ["A"] 0 emptyHealth).1 = some (b, h') →
      b ∈ [acctA, acctB] ∧ b.id ∉ ["A"] ∧
        availPure 0 (recordOf emptyHealth b.id) = true ∧
        h' = (isAvailable 0 (recordOf emptyHealth b.id)).2 ∧
        ∀ c ∈ [acctA, acctB], c.id ∉ ["A"] →
          availPure 0 (recordOf emptyHealth c.id) = true → b.priority ≤ c.priority)
    ∧ ((pick [acctA, acctB] ["A"] 0 emptyHealth).1 = none ↔
        ∀ c ∈ [acctA, acctB], c.id ∈ ["A"] ∨
          availPure 0 (recordOf emptyHealth c.id) = false)) :=
  ⟨by decide,
   pick_returns_lowest_priority_available [acctA, acctB] ["A"] 0 emptyHealth
     (by decide)⟩

/-! ### `allRateLimited` characterization -/

/-- The `earliest` update of the scan: running minimum with `none` as
the initial `Infinity`. -/
def minOpt : Option Int → Int → Option Int
  | none, x => some x
  | some e, x => if x < e then some x else some e

theorem arlScan_none_of_avail (now : Int) :
    ∀ (accounts : List Account) (m : HealthMap) (earliest : Option Int),
    (∃ a ∈ accounts, availPure now (recordOf m a.id) = true) →
    (arlScan now accounts m earliest).1 = none := by
  intro accounts
  induction accounts with
  | nil => intro m earliest h; simp at h
  | cons a rest ih =>
    intro m earliest h
    rw [arlScan.eq_def]
    simp only
    by_cases hav : availPure now (recordOf m a.id) = true
    · have havb : (isAvailable now (getHealth m a.id).1).1 = true := by
        rw [isAvailable_fst, getHealth_fst]; exact hav
      rw [if_pos havb]
    · have hav' : availPure now (recordOf m a.id) = false := by simpa using hav
      have havb : (isAvailable now (getHealth m a.id).1).1 = false := by
        rw [isAvailable_fst, getHealth_fst]; exact hav'
      rw [if_neg (by simp [havb])]
      rw [unavailable_step_map_eq now m a.id hav']
      obtain ⟨b, hb, hbav⟩ := h
      rcases List.mem_cons.mp hb with rfl | hb
      · rw [hbav] at hav'; cases hav'
      · exact ih m _ ⟨b, hb, hbav⟩

theorem arlScan_all_unavailable (now : Int) :
    ∀ (accounts : List Account) (m : HealthMap) (earliest : Option Int),
    (∀ a ∈ accounts, availPure now (recordOf m a.id) = false) →
    (arlScan now accounts m earliest).1 =
      some (List.foldl minOpt earliest
        (accounts.map (fun a => (recordOf m a.id).rate_limited_until))) := by
  intro accounts
  induction accounts with
  | nil => intro m earliest _; simp [arlScan]
  | cons a rest ih =>
    intro m earliest h
    have hav' : availPure now (recordOf m a.id) = false :=
      h a (List.mem_cons_self a rest)
    have havb : (isAvailable now (getHealth m a.id).1).1 = false := by
      rw [isAvailable_fst, getHealth_fst]; exact hav'
    rw [arlScan.eq_def]
    simp only
    rw [if_neg (by simp [havb])]
    rw [unavailable_step_map_eq now m a.id hav']
    rw [ih m _ (fun b hb => h b (List.mem_cons_of_mem a hb))]
    congr 1
    rw [List.map_cons, List.foldl_cons]
    congr 1
    rw [getHealth_fst]
    cases earliest <;> rfl

/-! ### Health-registry write footprints -/

theorem markRateLimited_recordOf (now : Int) (id : String) (ra : Option Int)
    (m : HealthMap) :
    recordOf (markRateLimited now id ra m) id =
      { recordOf m id with
        rate_limited_until :=
          now + min (ra.getD DEFAULT_RETRY_AFTER_MS) MAX_RETRY_AFTER_MS,
        score := max 0 ((recordOf m id).score - 10),
        last_failure := now,
        consecutive_failures := (recordOf m id).consecutive_failures + 1 } := by
  rw [markRateLimited]
  simp only
  rw [recordOf_setHealth_same, getHealth_fst]

theorem markSuccess_recordOf (now : Int) (id : String) (m : HealthMap) :
    recordOf (markSuccess now id m) id =
      { recordOf m id with
        score := min 100 ((recordOf m id).score + 1),
        last_success := now,
        consecutive_failures := 0 } := by
  rw [markSuccess]
  simp only
  rw [recordOf_setHealth_same, getHealth_fst]

/-- The running minimum started at `some e` over a list computes a value
in `{e} ∪ l` that bounds `e` and every element of `l` from below. -/
theorem minOpt_foldl_spec :
    ∀ (l : List Int) (e : Int), ∃ r, List.foldl minOpt (some e) l = some r ∧
      (r = e ∨ r ∈ l) ∧ r ≤ e ∧ ∀ x ∈ l, r ≤ x := by
  intro l
  induction l with
  | nil => intro e; exact ⟨e, rfl, Or.inl rfl, le_refl e, by simp⟩
  | cons x l ih =>
    intro e
    rw [List.foldl_cons]
    have hstep : minOpt (some e) x = some (if x < e then x else e) := by
      rw [minOpt]
      split
      · rfl
      · rfl
    rw [hstep]
    obtain ⟨r, hr, hrmem, hre, hrl⟩ := ih (if x < e then x else e)
    refine ⟨r, hr, ?_, ?_, ?_⟩
    · rcases hrmem with rfl | hrm
      · by_cases hx : x < e
        · rw [if_pos hx]; exact Or.inr (List.mem_cons_self x l)
        · rw [if_neg hx]; exact Or.inl rfl
      · exact Or.inr (List.mem_cons_of_mem x hrm)
    · refine le_trans hre ?_
      by_cases hx : x < e
      · rw [if_pos hx]; exact le_of_lt hx
      · rw [if_neg hx]
    · intro y hy
      rcases List.mem_cons.mp hy with hyx | hy
      · rw [hyx]
        refine le_trans hre ?_
        by_cases hx : x < e
        · rw [if_pos hx]
        · rw [if_neg hx]; exact le_of_not_lt hx
      · exact hrl y hy

/-- C6: `allRateLimited` returns false on an empty pool, false when some
credential is available, and otherwise the minimum `rateLimitedUntil`
across all credentials' health records. -/
theorem allRateLimited_earliest_recovery (accounts : List Account)
    (now : Int) (m : HealthMap) :
    (accounts = [] → (allRateLimited accounts now m).1 = none)
    ∧ ((∃ a ∈ accounts, availPure now (recordOf m a.id) = true) →
        (allRateLimited accounts now m).1 = none)
    ∧ (accounts ≠ [] →
        (∀ a ∈ accounts, availPure now (recordOf m a.id) = false) →
        ∃ e, (allRateLimited accounts now m).1 = some e ∧
          e ∈ accounts.map (fun a => (recordOf m a.id).rate_limited_until) ∧
          ∀ x ∈ accounts.map (fun a => (recordOf m a.id).rate_limited_until),
            e ≤ x) := by
  refine ⟨?_, ?_, ?_⟩
  · intro h; subst h; rfl
  · intro h
    cases accounts with
    | nil => simp at h
    | cons a rest =>
      have hnone := arlScan_none_of_avail now (a :: rest) m none h
      rcases hscan : arlScan now (a :: rest) m none with ⟨o, m'⟩
      rw [hscan] at hnone
      simp only at hnone
      subst hnone
      rw [allRateLimited, hscan]
  · intro hne hall
    cases accounts with
    | nil => exact absurd rfl hne
    | cons a rest =>
      have hscan := arlScan_all_unavailable now (a :: rest) m none hall
      rw [List.map_cons, List.foldl_cons] at hscan
      have hstep : minOpt none (recordOf m a.id).rate_limited_until
          = some (recordOf m a.id).rate_limited_until := rfl
      rw [hstep] at hscan
      obtain ⟨r, hr, hrmem, hre, hrl⟩ :=
        minOpt_foldl_spec (rest.map (fun b => (recordOf m b.id).rate_limited_until))
          (recordOf m a.id).rate_limited_until
      rw [hr] at hscan
      refine ⟨r, ?_, ?_, ?_⟩
      · rcases hs : arlScan now (a :: rest) m none with ⟨o, m'⟩
        rw [hs] at hscan
        simp only at hscan
        subst hscan
        rw [allRateLimited, hs]
      · rw [List.map_cons]
        rcases hrmem with rfl | hrm
        · exact List.mem_cons_self _ _
        · exact List.mem_cons_of_mem _ hrm
      · intro x hx
        rw [List.map_cons] at hx
        rcases List.mem_cons.mp hx with rfl | hx
        · exact hre
        · exact hrl x hx

/-- Witness for C6: two rate-limited credentials with distinct recovery
times; the earliest is returned. -/
theorem allRateLimited_earliest_recovery_witness :
    ((allRateLimited [acctA, acctB] 1000
        (markRateLimited 900 "B" (some 2000)
          (markRateLimited 1000 "A" (some 5000) emptyHealth))).1 = some 2900) ∧
    (([] : List Account) ≠ [acctA, acctB]) ∧
    ((acctA :: [acctB]) ≠ [] →
      (∀ a ∈ [acctA, acctB], availPure 1000
        (recordOf (markRateLimited 900 "B" (some 2000)
          (markRateLimited 1000 "A" (some 5000) emptyHealth)) a.id) = false) →
      ∃ e, (allRateLimited [acctA, acctB] 1000
          (markRateLimited 900 "B" (some 2000)
            (markRateLimited 1000 "A" (some 5000) emptyHealth))).1 = some e ∧
        e ∈ [acctA, acctB].map (fun a => (recordOf (markRateLimited 900 "B" (some 2000)
            (markRateLimited 1000 "A" (some 5000) emptyHealth)) a.id).rate_limited_until) ∧
        ∀ x ∈ [acctA, acctB].map (fun a => (recordOf (markRateLimited 900 "B" (some 2000)
            (markRateLimited 1000 "A" (some 5000) emptyHealth)) a.id).rate_limited_until),
          e ≤ x) :=
  ⟨by decide, by decide,
   (allRateLimited_earliest_recovery [acctA, acctB] 1000
     (markRateLimited 900 "B" (some 2000)
       (markRateLimited 1000 "A" (some 5000) emptyHealth))).2.2⟩

/-- C4 counterexample: the claim says a `retryAfter` below the default is
raised to at least `DEFAULT_RETRY_AFTER_MS`; but with `retryAfter = 1` ms
the code sets `rateLimitedUntil = now + 1`, strictly below
`now + DEFAULT_RETRY_AFTER_MS` — there is no lower clamp
(`delay = Math.min(retryAfterMs ?? DEFAULT, MAX)`). -/
theorem markRateLimited_no_lower_clamp_cex :
    (recordOf (markRateLimited 1000 "A" (some 1) emptyHealth) "A").rate_limited_until
      = 1001 ∧
    ¬(1000 + DEFAULT_RETRY_AFTER_MS ≤
      (recordOf (markRateLimited 1000 "A" (some 1) emptyHealth) "A").rate_limited_until) := by
  constructor
  · rfl
  · decide

/-- C4 (amended): `mark_rate_limited(id, retryAfter)` uses
`DEFAULT_RETRY_AFTER_MS` (60000 ms) when `retryAfter` is absent and caps
the delay at `MAX_RETRY_AFTER_MS` (600000 ms); a present `retryAfter`
below the default is used as-is, not raised. It then sets
`rateLimitedUntil = now + delay`, decreases score by 10 with floor 0,
increments `consecutiveFailures`, and sets `lastFailure = now`. -/
theorem markRateLimited_clamp_amended (now : Int) (id : String)
    (ra : Option Int) (m : HealthMap) :
    ((recordOf (markRateLimited now id ra m) id).rate_limited_until
        = now + min (ra.getD DEFAULT_RETRY_AFTER_MS) MAX_RETRY_AFTER_MS) ∧
    (ra = none →
      (recordOf (markRateLimited now id ra m) id).rate_limited_until
        = now + DEFAULT_RETRY_AFTER_MS) ∧
    ((recordOf (markRateLimited now id ra m) id).rate_limited_until
        ≤ now + MAX_RETRY_AFTER_MS) ∧
    ((recordOf (markRateLimited now id ra m) id).score
        = max 0 ((recordOf m id).score - 10)) ∧
    ((recordOf (markRateLimited now id ra m) id).consecutive_failures
        = (recordOf m id).consecutive_failures + 1) ∧
    ((recordOf (markRateLimited now id ra m) id).last_failure = now) := by
  rw [markRateLimited_recordOf]
  refine ⟨rfl, ?_, ?_, rfl, rfl, rfl⟩
  · intro h
    subst h
    simp only [Option.getD_none]
    rw [min_eq_left]
    decide
  · exact add_le_add_left (min_le_right _ _) now

/-- Witness for the amended C4 at a concrete call. -/
theorem markRateLimited_clamp_amended_witness :
    ((some 700000 : Option Int) = none →
      (recordOf (markRateLimited 5 "A" (some 700000) emptyHealth) "A").rate_limited_until
        = 5 + DEFAULT_RETRY_AFTER_MS) ∧
    ((recordOf (markRateLimited 5 "A" (some 700000) emptyHealth) "A").rate_limited_until
        = 5 + MAX_RETRY_AFTER_MS) ∧
    ((recordOf (markRateLimited 5 "A" (some 700000) emptyHealth) "A").consecutive_failures
        = 1) :=
  ⟨((markRateLimited_clamp_amended 5 "A" (some 700000) emptyHealth).2.1),
   by decide, by decide⟩

/-- C7: while a credential's rate-limit window is active the availability
check reports it unavailable and `pick` skips it; once the window has
expired the check clears the window, grants a +10 score bonus (cap 100),
reports it available, and a subsequent `pick` returns it again. -/
theorem rate_limit_window_gates_availability (now : Int) (a : Account)
    (h : AccountHealth) (m : HealthMap) (hm : m a.id = some h)
    (hpos : 0 < h.rate_limited_until) :
    (now < h.rate_limited_until →
      isAvailable now h = (false, h) ∧ (pick [a] [] now m).1 = none) ∧
    (h.rate_limited_until ≤ now →
      isAvailable now h =
        (true, { h with rate_limited_until := 0,
                        score := min 100 (h.score + 10) }) ∧
      (pick [a] [] now m).1 =
        some (a, { h with rate_limited_until := 0,
                          score := min 100 (h.score + 10) })) := by
  have hrec : recordOf m a.id = h := by rw [recordOf, hm]; rfl
  have hne : h.rate_limited_until ≠ 0 := ne_of_gt hpos
  constructor
  · intro hlt
    have hunav : availPure now h = false := by
      rw [availPure]
      simp [hne, not_le.mpr hlt]
    constructor
    · exact isAvailable_snd_of_unavailable now h hunav
    · rw [pick]
      have hnexcl : a.id ∉ ([] : List String) := by simp
      rw [if_neg hnexcl]
      simp only
      have havb : (isAvailable now (getHealth m a.id).1).1 = false := by
        rw [isAvailable_fst, getHealth_fst, hrec]; exact hunav
      rw [if_neg (by simp [havb])]
      rfl
  · intro hge
    have hup : isAvailable now h =
        (true, { h with rate_limited_until := 0,
                        score := min 100 (h.score + 10) }) := by
      rw [isAvailable]
      rw [if_neg hne, if_pos hge]
    refine ⟨hup, ?_⟩
    rw [pick]
    have hnexcl : a.id ∉ ([] : List String) := by simp
    rw [if_neg hnexcl]
    simp only
    have hg1 : (getHealth m a.id).1 = h := by rw [getHealth_fst, hrec]
    rw [hg1, hup]
    simp

/-- Witness for C7: a credential limited until time 10, checked at 5 (in
window) and via a second record at 3, checked at 5 (expired). -/
theorem rate_limit_window_gates_availability_witness :
    ((setHealth emptyHealth "A"
        { freshHealth "A" with rate_limited_until := 10 }) "A"
      = some { freshHealth "A" with rate_limited_until := 10 }) ∧
    (0 < (10 : Int)) ∧
    ((5 < (10 : Int) →
      isAvailable 5 { freshHealth "A" with rate_limited_until := 10 }
        = (false, { freshHealth "A" with rate_limited_until := 10 }) ∧
      (pick [acctA] [] 5 (setHealth emptyHealth "A"
        { freshHealth "A" with rate_limited_until := 10 })).1 = none) ∧
    ((10 : Int) ≤ 5 →
      isAvailable 5 { freshHealth "A" with rate_limited_until := 10 }
        = (true, { { freshHealth "A" with rate_limited_until := 10 } with
                    rate_limited_until := 0,
                    score := min 100 ({ freshHealth "A" with
                      rate_limited_until := 10 }.score + 10) }) ∧
      (pick [acctA] [] 5 (setHealth emptyHealth "A"
        { freshHealth "A" with rate_limited_until := 10 })).1 =
        some (acctA, { { freshHealth "A" with rate_limited_until := 10 } with
                    rate_limited_until := 0,
                    score := min 100 ({ freshHealth "A" with
                      rate_limited_until := 10 }.score + 10) }))) :=
  ⟨by decide, by decide,
   rate_limit_window_gates_availability 5 acctA
     { freshHealth "A" with rate_limited_until := 10 }
     (setHealth emptyHealth "A" { freshHealth "A" with rate_limited_until := 10 })
     (by decide) (by decide)⟩

/-! ### Termination measure of the retry loop -/

/-- Number of credentials not yet tried: the quantity the retry loop of
`copilotFetch` strictly decreases. -/
def remaining (accounts : List Account) (tried : List String) : Nat :=
  (accounts.filter (fun b => decide (b.id ∉ tried))).length

theorem filter_length_le_of_imp {α : Type} (p q : α → Bool)
    (h : ∀ b, q b = true → p b = true) :
    ∀ l : List α, (l.filter q).length ≤ (l.filter p).length := by
  intro l
  induction l with
  | nil => simp
  | cons x l ih =>
    rw [List.filter_cons, List.filter_cons]
    cases hq : q x with
    | true =>
      rw [h x hq]
      simpa using Nat.succ_le_succ ih
    | false =>
      cases hp : p x with
      | true =>
        simp only [if_pos rfl, cond_true, List.length_cons]
        exact Nat.le_succ_of_le ih
      | false =>
        simpa using ih

theorem remaining_le (accounts : List Account) (tried : List String) :
    remaining accounts tried ≤ accounts.length :=
  List.length_filter_le _ accounts

theorem remaining_nil (accounts : List Account) :
    remaining accounts [] = accounts.length := by
  rw [remaining]
  rw [List.filter_eq_self.mpr]
  intro b _
  simp

/-- Adding an untried credential of the pool to `tried` strictly
decreases the number of remaining credentials. -/
theorem remaining_lt (accounts : List Account) (tried : List String)
    (a : Account) (ha : a ∈ accounts) (hna : a.id ∉ tried) :
    remaining accounts (tried ++ [a.id]) < remaining accounts tried := by
  have himp : ∀ b : Account,
      decide (b.id ∉ tried ++ [a.id]) = true → decide (b.id ∉ tried) = true := by
    intro b hb
    simp only [decide_eq_true_eq, List.mem_append] at hb ⊢
    intro hmem
    exact hb (Or.inl hmem)
  induction accounts with
  | nil => cases ha
  | cons b rest ih =>
    rw [remaining, remaining, List.filter_cons, List.filter_cons]
    cases hq : decide (b.id ∉ tried ++ [a.id]) with
    | true =>
      rw [himp b hq]
      simp only [if_pos rfl, List.length_cons]
      have hab : a ∈ rest := by
        rcases List.mem_cons.mp ha with rfl | hr
        · exfalso
          simp only [decide_eq_true_eq, List.mem_append] at hq
          exact hq (Or.inr (List.mem_singleton_self a.id))
        · exact hr
      exact Nat.succ_lt_succ (ih hab)
    | false =>
      cases hp : decide (b.id ∉ tried) with
      | true =>
        simp only [if_pos rfl, cond_false, List.length_cons]
        calc (rest.filter (fun c => decide (c.id ∉ tried ++ [a.id]))).length
            ≤ (rest.filter (fun c => decide (c.id ∉ tried))).length :=
              filter_length_le_of_imp _ _ himp rest
          _ < (rest.filter (fun c => decide (c.id ∉ tried))).length + 1 :=
              Nat.lt_succ_self _
      | false =>
        have hab : a ∈ rest := by
          rcases List.mem_cons.mp ha with rfl | hr
          · exfalso
            simp only [decide_eq_false_iff_not, not_not] at hp
            exact hna hp
          · exact hr
        have hlt := ih hab
        rw [remaining, remaining] at hlt
        exact hlt

/-- Invariant of the `while (current)` loop of `copilotFetch`: with fuel
at least the number of untried credentials the loop always returns; the
tried list only grows, stays duplicate-free and inside the pool; every
attempt before the last returned 429; and on the pass-through path the
returned response is the first non-429 one, with `markSuccess` recorded
for the credential that produced it. -/
theorem fetchLoop_spec (accounts : List Account) (transport : Nat → Response)
    (parseRA : Response → Option Int) (now : Int) :
    ∀ (fuel : Nat) (cur : Account × AccountHealth) (m : HealthMap)
      (tried : List String),
      cur.1 ∈ accounts → cur.1.id ∉ tried →
      remaining accounts tried ≤ fuel →
      tried.Nodup → (∀ x ∈ tried, x ∈ accounts.map Account.id) →
      (∀ j, j < tried.length → (transport j).status = 429) →
      ∃ lo, fetchLoop accounts transport parseRA now fuel cur m tried = some lo ∧
        (∃ s, lo.tried = tried ++ s) ∧
        lo.tried.Nodup ∧
        (∀ x ∈ lo.tried, x ∈ accounts.map Account.id) ∧
        (∀ j, j + 1 < lo.tried.length → (transport j).status = 429) ∧
        (∀ resp uid, lo.res = some (resp, uid) →
          resp = transport (lo.tried.length - 1) ∧
          ¬resp.status = 429 ∧
          lo.tried.getLast? = some uid ∧
          (recordOf lo.health uid).last_success = now ∧
          (recordOf lo.health uid).consecutive_failures = 0) := by
  intro fuel
  induction fuel with
  | zero =>
    intro cur m tried hmem hnt hrem _ _ _
    exfalso
    have hmemf : cur.1 ∈ accounts.filter (fun b => decide (b.id ∉ tried)) :=
      List.mem_filter.mpr ⟨hmem, by simpa using hnt⟩
    have hpos : 0 < remaining accounts tried := List.length_pos_of_mem hmemf
    omega
  | succ fuel ih =>
    intro cur m tried hmem hnt hrem hnd hsub h429
    rw [fetchLoop]
    simp only
    by_cases hst : (transport tried.length).status = 429
    · rw [if_neg (not_not_intro hst)]
      rcases hp : pick accounts (tried ++ [cur.1.id]) now
          (markRateLimited now cur.1.id (parseRA (transport tried.length)) m)
        with ⟨onext, m2⟩
      have hnd' : (tried ++ [cur.1.id]).Nodup := by
        rw [List.nodup_append]
        refine ⟨hnd, List.nodup_singleton _, ?_⟩
        intro x hx hx2
        rw [List.mem_singleton] at hx2
        subst hx2
        exact hnt hx
      have hsub' : ∀ x ∈ tried ++ [cur.1.id], x ∈ accounts.map Account.id := by
        intro x hx
        rcases List.mem_append.mp hx with hx | hx
        · exact hsub x hx
        · rw [List.mem_singleton] at hx
          subst hx
          exact List.mem_map_of_mem Account.id hmem
      have h429' : ∀ j, j < (tried ++ [cur.1.id]).length →
          (transport j).status = 429 := by
        intro j hj
        rw [List.length_append, List.length_singleton] at hj
        rcases Nat.lt_succ_iff_lt_or_eq.mp hj with hj | hj
        · exact h429 j hj
        · rw [hj]; exact hst
      cases onext with
      | none =>
        refine ⟨⟨none, m2, tried ++ [cur.1.id]⟩, rfl, ⟨[cur.1.id], rfl⟩,
          hnd', hsub', ?_, ?_⟩
        · intro j hj
          rw [List.length_append, List.length_singleton] at hj
          exact h429 j (by omega)
        · intro resp uid hres
          cases hres
      | some next =>
        have hpick1 : (pick accounts (tried ++ [cur.1.id]) now
            (markRateLimited now cur.1.id (parseRA (transport tried.length)) m)).1
            = some (next.1, next.2) := by rw [hp]
        obtain ⟨hnmem, hnex, -, -, -⟩ :=
          pick_some_spec (tried ++ [cur.1.id]) now accounts _ next.1 next.2 hpick1
        have hrem' : remaining accounts (tried ++ [cur.1.id]) ≤ fuel := by
          have := remaining_lt accounts tried cur.1 hmem hnt
          omega
        obtain ⟨lo, hlo, ⟨s, hs⟩, hnodup, hsubl, hhist, hsucc⟩ :=
          ih next m2 (tried ++ [cur.1.id]) hnmem hnex hrem' hnd' hsub' h429'
        refine ⟨lo, hlo, ⟨cur.1.id :: s, ?_⟩, hnodup, hsubl, hhist, hsucc⟩
        rw [hs, List.append_assoc, List.singleton_append]
    · rw [if_pos hst]
      refine ⟨⟨some (transport tried.length, cur.1.id),
               markSuccess now cur.1.id m, tried ++ [cur.1.id]⟩, rfl,
        ⟨[cur.1.id], rfl⟩, ?_, ?_, ?_, ?_⟩
      · rw [List.nodup_append]
        refine ⟨hnd, List.nodup_singleton _, ?_⟩
        intro x hx hx2
        rw [List.mem_singleton] at hx2
        subst hx2
        exact hnt hx
      · intro x hx
        rcases List.mem_append.mp hx with hx | hx
        · exact hsub x hx
        · rw [List.mem_singleton] at hx
          subst hx
          exact List.mem_map_of_mem Account.id hmem
      · intro j hj
        rw [List.length_append, List.length_singleton] at hj
        exact h429 j (by omega)
      · intro resp uid hres
        simp only [Option.some.injEq, Prod.mk.injEq] at hres
        obtain ⟨h1, h2⟩ := hres
        subst h1
        subst h2
        refine ⟨?_, hst, ?_, ?_, ?_⟩
        · rw [List.length_append, List.length_singleton, Nat.add_sub_cancel]
        · exact List.getLast?_concat tried
        · rw [markSuccess_recordOf]
        · rw [markSuccess_recordOf]

/-- End-to-end characterization of one `copilotFetch` call, shared by the
dispatch theorems: the call always returns (fuel never runs out), the
tried list is duplicate-free and drawn from the pool, a synthesized
response is a 429 JSON error with one of the three message shapes, and a
passed-through response is the first non-429 transport response with
`markSuccess` recorded for the credential that produced it. -/
theorem copilotFetch_spec (accounts : List Account) (transport : Nat → Response)
    (parseRA : Response → Option Int) (now : Int) (m : HealthMap) :
    ∃ out, copilotFetch accounts transport parseRA now m = some out ∧
      out.tried.Nodup ∧
      (∀ x ∈ out.tried, x ∈ accounts.map Account.id) ∧
      (out.usedId = none →
        out.response.status = 429 ∧
        out.response.headers = [("Content-Type", "application/json")] ∧
        ∃ msg, out.response.body = Body.errJson msg ∧
          (msg = ErrMsg.noAccounts ∨ (∃ r, msg = ErrMsg.allLimited r) ∨
           msg = ErrMsg.allExhausted)) ∧
      (∀ uid, out.usedId = some uid →
        out.response = transport (out.tried.length - 1) ∧
        ¬out.response.status = 429 ∧
        (∀ j, j + 1 < out.tried.length → (transport j).status = 429) ∧
        out.tried.getLast? = some uid ∧
        (recordOf out.health uid).last_success = now ∧
        (recordOf out.health uid).consecutive_failures = 0) := by
  rw [copilotFetch]
  rcases hp : pick accounts [] now m with ⟨oc, m0⟩
  cases oc with
  | none =>
    refine ⟨⟨synthResponse
        (exhaustMsg (allRateLimited accounts now m0).1 ErrMsg.noAccounts),
        none, (allRateLimited accounts now m0).2, []⟩, rfl,
      List.nodup_nil, by simp, ?_, ?_⟩
    · intro _
      refine ⟨rfl, rfl,
        exhaustMsg (allRateLimited accounts now m0).1 ErrMsg.noAccounts, rfl, ?_⟩
      cases harl : (allRateLimited accounts now m0).1 with
      | none => exact Or.inl rfl
      | some r => exact Or.inr (Or.inl ⟨r, rfl⟩)
    · intro uid h
      exact Option.noConfusion h
  | some cur =>
    have hpick1 : (pick accounts [] now m).1 = some (cur.1, cur.2) := by rw [hp]
    obtain ⟨hmem, -, -, -, -⟩ := pick_some_spec [] now accounts m cur.1 cur.2 hpick1
    obtain ⟨lo, hlo, -, hnodup, hsubl, hhist, hsucc⟩ :=
      fetchLoop_spec accounts transport parseRA now accounts.length cur m0 []
        hmem (by simp) (remaining_nil accounts).le List.nodup_nil (by simp)
        (fun j hj => absurd hj (Nat.not_lt_zero j))
    rcases hres : lo.res with - | ⟨resp, uid⟩
    · refine ⟨⟨synthResponse
          (exhaustMsg (allRateLimited accounts now lo.health).1 ErrMsg.allExhausted),
          none, (allRateLimited accounts now lo.health).2, lo.tried⟩, ?_,
        hnodup, hsubl, ?_, ?_⟩
      · simp only [hlo, hres]
      · intro _
        refine ⟨rfl, rfl,
          exhaustMsg (allRateLimited accounts now lo.health).1 ErrMsg.allExhausted,
          rfl, ?_⟩
        cases harl : (allRateLimited accounts now lo.health).1 with
        | none => exact Or.inr (Or.inr rfl)
        | some r => exact Or.inr (Or.inl ⟨r, rfl⟩)
      · intro uid h
        exact Option.noConfusion h
    · obtain ⟨hresp, hnst, hlast, hls, hcf⟩ := hsucc resp uid hres
      refine ⟨⟨resp, some uid, lo.health, lo.tried⟩, ?_, hnodup, hsubl, ?_, ?_⟩
      · simp only [hlo, hres]
      · intro h
        exact Option.noConfusion h
      · intro uid' h
        have huid : uid = uid' := by
          injection h
        subst huid
        exact ⟨hresp, hnst, hhist, hlast, hls, hcf⟩

/-- C2: one dispatch call attempts each credential at most once: the
tried set is duplicate-free and drawn from the pool (so the loop makes at
most one attempt per pool credential and terminates), and `pick` never
returns a credential in its exclusion set. -/
theorem dispatch_bounded_one_attempt_per_credential (accounts : List Account)
    (transport : Nat → Response) (parseRA : Response → Option Int)
    (now : Int) (m : HealthMap) :
    (∃ out, copilotFetch accounts transport parseRA now m = some out ∧
      out.tried.Nodup ∧
      (∀ x ∈ out.tried, x ∈ accounts.map Account.id) ∧
      out.tried.length ≤ accounts.length) ∧
    (∀ (excl : List String) (m' : HealthMap) (b : Account) (h' : AccountHealth),
      (pick accounts excl now m').1 = some (b, h') → b.id ∉ excl) := by
  constructor
  · obtain ⟨out, hout, hnd, hsub, -, -⟩ :=
      copilotFetch_spec accounts transport parseRA now m
    refine ⟨out, hout, hnd, hsub, ?_⟩
    have hsp := (List.subperm_of_subset hnd (fun x hx => hsub x hx)).length_le
    rwa [List.length_map] at hsp
  · intro excl m' b h' hpk
    exact (pick_some_spec excl now accounts m' b h' hpk).2.1

/-- Witness for C2: a two-credential pool with an always-throttling
transport tries each credential exactly once. -/
theorem dispatch_bounded_one_attempt_per_credential_witness :
    ((copilotFetch [acctA, acctB] trAlways429 praNone 1000 emptyHealth).map
      (fun o => o.tried) = some ["A", "B"]) ∧
    (∃ out, copilotFetch [acctA, acctB] trAlways429 praNone 1000 emptyHealth
        = some out ∧
      out.tried.Nodup ∧
      (∀ x ∈ out.tried, x ∈ [acctA, acctB].map Account.id) ∧
      out.tried.length ≤ [acctA, acctB].length) :=
  ⟨by decide,
   (dispatch_bounded_one_attempt_per_credential [acctA, acctB] trAlways429
     praNone 1000 emptyHealth).1⟩

/-- C3: the first transport response whose status is not 429 is returned
to the caller unmodified (it is the transport's response object itself:
same status, headers, body) and `markSuccess` is recorded for the
credential used; in the concrete A/B scenario (429 then 200) the wrapper
uses A on attempt 1, B on attempt 2, and returns the 200 response. -/
theorem dispatch_passthrough_first_non_throttle (accounts : List Account)
    (transport : Nat → Response) (parseRA : Response → Option Int)
    (now : Int) (m : HealthMap) :
    (∀ out uid, copilotFetch accounts transport parseRA now m = some out →
      out.usedId = some uid →
      out.response = transport (out.tried.length - 1) ∧
      ¬out.response.status = 429 ∧
      (∀ j, j + 1 < out.tried.length → (transport j).status = 429) ∧
      out.tried.getLast? = some uid ∧
      (recordOf out.health uid).last_success = now ∧
      (recordOf out.health uid).consecutive_failures = 0) ∧
    ((copilotFetch [acctA, acctB] tr429then200 praNone 1000 emptyHealth).map
        (fun o => (o.response, o.usedId, o.tried))
      = some (resp200, some "B", ["A", "B"])) := by
  constructor
  · intro out uid hout huid
    obtain ⟨out', hout', -, -, -, hsucc⟩ :=
      copilotFetch_spec accounts transport parseRA now m
    rw [hout] at hout'
    have h : out = out' := by injection hout'
    subst h
    exact hsucc uid huid
  · decide

/-- Witness for C3: in the A/B scenario the passed-through response is
the second transport response, the used credential is B and B's record
carries the `markSuccess` footprint. -/
theorem dispatch_passthrough_first_non_throttle_witness :
    ((copilotFetch [acctA, acctB] tr429then200 praNone 1000 emptyHealth).map
        (fun o => (o.response, o.usedId, o.tried))
      = some (resp200, some "B", ["A", "B"])) ∧
    (∃ out, copilotFetch [acctA, acctB] tr429then200 praNone 1000 emptyHealth
        = some out ∧
      out.response = tr429then200 (out.tried.length - 1) ∧
      ¬out.response.status = 429 ∧
      out.tried.getLast? = some "B" ∧
      (recordOf out.health "B").last_success = 1000 ∧
      (recordOf out.health "B").consecutive_failures = 0) := by
  have hmap : (copilotFetch [acctA, acctB] tr429then200 praNone 1000
      emptyHealth).map (fun o => (o.response, o.usedId, o.tried))
      = some (resp200, some "B", ["A", "B"]) := by decide
  refine ⟨hmap, ?_⟩
  rcases hcf : copilotFetch [acctA, acctB] tr429then200 praNone 1000 emptyHealth
    with - | out
  · rw [hcf] at hmap
    exact Option.noConfusion hmap
  · rw [hcf] at hmap
    simp at hmap
    obtain ⟨hresp, huid, htried⟩ := hmap
    obtain ⟨h1, h2, -, h4, h5, h6⟩ :=
      (dispatch_passthrough_first_non_throttle [acctA, acctB] tr429then200
        praNone 1000 emptyHealth).1 out "B" hcf huid
    exact ⟨out, rfl, h1, h2, h4, h5, h6⟩

/-- The two exhaustion-body shapes claim C5 allows: "no credentials
configured" and "all accounts rate limited, earliest recovery t". -/
def claimedExhaustionBody : Body → Bool
  | Body.errJson ErrMsg.noAccounts => true
  | Body.errJson (ErrMsg.allLimited _) => true
  | _ => false

/-- C5 counterexample: one credential, transport always 429 with a parsed
retry-after of 0 ms.  The loop exhausts the pool, but by then the
credential's window (`now + 0`) has already expired, so
`allRateLimited()` reports false and the synthesized body says
"All accounts exhausted" — neither of the two message shapes the claim
allows. -/
theorem dispatch_exhaustion_message_cex :
    (copilotFetch [acctA] trAlways429 praZero 1000 emptyHealth).map
      (fun o => (o.usedId, o.response.body, claimedExhaustionBody o.response.body))
      = some (none, Body.errJson ErrMsg.allExhausted, false) := by decide

/-- C5 (amended): whenever dispatch cannot obtain a credential it never
fails to return; it returns a synthesized response with status 429 whose
JSON body states that no credentials are configured, that all accounts
are rate limited together with the earliest recovery time, or — when
after the retry loop some credential has already become available again —
that all accounts are exhausted.  An empty pool always yields the
"no credentials configured" body. -/
theorem dispatch_exhaustion_synthesized_amended (accounts : List Account)
    (transport : Nat → Response) (parseRA : Response → Option Int)
    (now : Int) (m : HealthMap) :
    (∃ out, copilotFetch accounts transport parseRA now m = some out) ∧
    (∀ out, copilotFetch accounts transport parseRA now m = some out →
      out.usedId = none →
      out.response.status = 429 ∧
      out.response.headers = [("Content-Type", "application/json")] ∧
      ∃ msg, out.response.body = Body.errJson msg ∧
        (msg = ErrMsg.noAccounts ∨ (∃ r, msg = ErrMsg.allLimited r) ∨
         msg = ErrMsg.allExhausted)) ∧
    (accounts = [] →
      ∀ out, copilotFetch accounts transport parseRA now m = some out →
        out.usedId = none ∧ out.response.body = Body.errJson ErrMsg.noAccounts) := by
  obtain ⟨out', hout', -, -, hsynth, -⟩ :=
    copilotFetch_spec accounts transport parseRA now m
  refine ⟨⟨out', hout'⟩, ?_, ?_⟩
  · intro out hout hnone
    rw [hout] at hout'
    have h : out = out' := by injection hout'
    subst h
    exact hsynth hnone
  · intro hacc out hout
    subst hacc
    have hcomp : copilotFetch [] transport parseRA now m
        = some ⟨synthResponse ErrMsg.noAccounts, none, m, []⟩ := rfl
    rw [hcomp] at hout
    have h : (⟨synthResponse ErrMsg.noAccounts, none, m, []⟩ : FetchOut) = out := by
      injection hout
    rw [← h]
    exact ⟨rfl, rfl⟩

/-- Witness for the amended C5: two credentials, always-429 transport, no
retry-after header; the synthesized body carries the earliest recovery
time. -/
theorem dispatch_exhaustion_synthesized_amended_witness :
    ((copilotFetch [acctA, acctB] trAlways429 praNone 1000 emptyHealth).map
      (fun o => (o.usedId, o.response.status, o.response.body))
      = some (none, 429, Body.errJson (ErrMsg.allLimited 61000))) ∧
    (∃ out, copilotFetch [acctA, acctB] trAlways429 praNone 1000 emptyHealth
        = some out ∧
      out.response.status = 429 ∧
      ∃ msg, out.response.body = Body.errJson msg ∧
        (msg = ErrMsg.noAccounts ∨ (∃ r, msg = ErrMsg.allLimited r) ∨
         msg = ErrMsg.allExhausted)) := by
  have hmap : (copilotFetch [acctA, acctB] trAlways429 praNone 1000
      emptyHealth).map (fun o => (o.usedId, o.response.status, o.response.body))
      = some (none, 429, Body.errJson (ErrMsg.allLimited 61000)) := by decide
  refine ⟨hmap, ?_⟩
  rcases hcf : copilotFetch [acctA, acctB] trAlways429 praNone 1000 emptyHealth
    with - | out
  · rw [hcf] at hmap
    exact Option.noConfusion hmap
  · rw [hcf] at hmap
    simp at hmap
    obtain ⟨huid, -, -⟩ := hmap
    obtain ⟨hst, -, msg, hbody, hshape⟩ :=
      (dispatch_exhaustion_synthesized_amended [acctA, acctB] trAlways429
        praNone 1000 emptyHealth).2.1 out hcf huid
    exact ⟨out, rfl, hst, msg, hbody, hshape⟩

/-- C8: on a tier-1 probe 200 response, if the body parses and both
tracked free-tier quota counters are ≤ 0, the prober calls
`markRateLimited` with a retry-after computed from the included reset
timestamp (when present) and returns a quota_exhausted result; otherwise
— quotas not depleted, quota counters absent, or unparsable 200 body —
it calls `markSuccess` and returns ok. -/
theorem probe_tier1_200_quota_handling (a : Account) (ra : Option Int)
    (body : Option ProbeJson) (now : Int) (m : HealthMap) :
    (∀ j chat completions, body = some j →
      j.limited_user_quotas = some (chat, completions) →
      quotaDepleted chat = true → quotaDepleted completions = true →
      tryTokenExchange a (some ⟨200, ra, body⟩) now m =
        (some { id := a.id, status := ProbeStatus.quota_exhausted,
                httpStatus := some 200, retryAfterMs := quotaRetryAfter j now,
                quotaResetDate := quotaReset j, username := none,
                method := ProbeMethod.token_exchange },
         markRateLimited now a.id (quotaRetryAfter j now) m)) ∧
    ((body = none ∨ ∃ j, body = some j ∧
        (j.limited_user_quotas = none ∨
         ∃ chat completions, j.limited_user_quotas = some (chat, completions) ∧
           (quotaDepleted chat = false ∨ quotaDepleted completions = false))) →
      tryTokenExchange a (some ⟨200, ra, body⟩) now m =
        (some { id := a.id, status := ProbeStatus.ok, httpStatus := some 200,
                retryAfterMs := none, quotaResetDate := none, username := none,
                method := ProbeMethod.token_exchange },
         markSuccess now a.id m)) := by
  constructor
  · intro j chat completions hbody hquota hc hcomp
    subst hbody
    simp [tryTokenExchange, hquota, hc, hcomp]
  · intro hcase
    rcases hcase with hbody | ⟨j, hbody, hrest⟩
    · subst hbody
      simp [tryTokenExchange]
    · subst hbody
      rcases hrest with hquota | ⟨chat, completions, hquota, hdep⟩
      · simp [tryTokenExchange, hquota]
      · rcases hdep with hdep | hdep
        · simp [tryTokenExchange, hquota, hdep]
        · simp [tryTokenExchange, hquota, hdep]

/-- Witness for C8: a depleted body (chat 0, completions −2, reset
1700000000 s) yields quota_exhausted with the computed retry-after; an
unparsable 200 body yields ok with `markSuccess`. -/
theorem probe_tier1_200_quota_handling_witness :
    ((some (⟨some (some 0, some (-2)), some 1700000000, none⟩ : ProbeJson)
        = some (⟨some (some 0, some (-2)), some 1700000000, none⟩ : ProbeJson)) ∧
     quotaDepleted (some 0) = true ∧ quotaDepleted (some (-2)) = true ∧
     tryTokenExchange acctA
        (some ⟨200, none, some ⟨some (some 0, some (-2)), some 1700000000, none⟩⟩)
        1000 emptyHealth =
      (some { id := "A", status := ProbeStatus.quota_exhausted,
              httpStatus := some 200,
              retryAfterMs :=
                quotaRetryAfter ⟨some (some 0, some (-2)), some 1700000000, none⟩ 1000,
              quotaResetDate :=
                quotaReset ⟨some (some 0, some (-2)), some 1700000000, none⟩,
              username := none, method := ProbeMethod.token_exchange },
       markRateLimited 1000 "A"
         (quotaRetryAfter ⟨some (some 0, some (-2)), some 1700000000, none⟩ 1000)
         emptyHealth)) ∧
    (tryTokenExchange acctA (some ⟨200, none, none⟩) 1000 emptyHealth =
      (some { id := "A", status := ProbeStatus.ok, httpStatus := some 200,
              retryAfterMs := none, quotaResetDate := none, username := none,
              method := ProbeMethod.token_exchange },
       markSuccess 1000 "A" emptyHealth)) :=
  ⟨⟨rfl, by decide, by decide,
    (probe_tier1_200_quota_handling acctA none
        (some ⟨some (some 0, some (-2)), some 1700000000, none⟩) 1000
        emptyHealth).1
      ⟨some (some 0, some (-2)), some 1700000000, none⟩ (some 0) (some (-2))
      rfl rfl (by decide) (by decide)⟩,
   (probe_tier1_200_quota_handling acctA none none 1000 emptyHealth).2
     (Or.inl rfl)⟩

/-- The seeded registry used by the C9 counterexample: credential "A"
with a failure streak of 3. -/
def m3 : HealthMap :=
  setHealth emptyHealth "A" { freshHealth "A" with consecutive_failures := 3 }

/-- C9 counterexample: a dispatched request whose transport response is
401 does mutate the used credential's health record — `markSuccess` runs
on the generic non-429 path, resetting `consecutiveFailures` from 3 to 0
and stamping `lastSuccess`, contradicting "leaves the credential's health
record unchanged". -/
theorem auth_failure_dispatch_mutates_cex :
    ((recordOf m3 "A").consecutive_failures = 3) ∧
    ((copilotFetch [acctA] trAlways401 praNone 1000 m3).map
      (fun o => (o.usedId, o.response.status,
        (recordOf o.health "A").consecutive_failures,
        (recordOf o.health "A").last_success))
      = some (some "A", 401, 0, 1000)) :=
  ⟨by decide, by decide⟩

/-- C9 (amended): probe authentication/authorization failures never
mutate the health registry — a tier-1 401, a tier-1 403 without a
rate-limit message, and a tier-2 401 all return an error result with the
registry unchanged.  A dispatched request whose transport response is
401, however, takes the generic non-429 success path: the response is
passed through and `markSuccess` is recorded on the used credential
(updating `lastSuccess`, resetting `consecutiveFailures`). -/
theorem auth_failure_health_mutation_amended :
    (∀ (a : Account) (ra : Option Int) (body : Option ProbeJson) (now : Int)
       (m : HealthMap),
      tryTokenExchange a (some ⟨401, ra, body⟩) now m =
        (some { id := a.id, status := ProbeStatus.error, httpStatus := some 401,
                retryAfterMs := none, quotaResetDate := none, username := none,
                method := ProbeMethod.token_exchange }, m)) ∧
    (∀ (a : Account) (ra : Option Int) (body : Option ProbeJson) (now : Int)
       (m : HealthMap), rateLimitMsg body = false →
      tryTokenExchange a (some ⟨403, ra, body⟩) now m =
        (some { id := a.id, status := ProbeStatus.error, httpStatus := some 403,
                retryAfterMs := none, quotaResetDate := none, username := none,
                method := ProbeMethod.token_exchange }, m)) ∧
    (∀ (a : Account) (login : Option (Option String)) (now : Int)
       (m : HealthMap),
      tryUserApi a (some ⟨401, login⟩) now m =
        ({ id := a.id, status := ProbeStatus.error, httpStatus := some 401,
           retryAfterMs := none, quotaResetDate := none, username := none,
           method := ProbeMethod.user_api }, m)) ∧
    (∀ (accounts : List Account) (parseRA : Response → Option Int) (now : Int)
       (m : HealthMap) (out : FetchOut) (uid : String),
      copilotFetch accounts trAlways401 parseRA now m = some out →
      out.usedId = some uid →
      out.response.status = 401 ∧
      (recordOf out.health uid).last_success = now ∧
      (recordOf out.health uid).consecutive_failures = 0) := by
  refine ⟨?_, ?_, ?_, ?_⟩
  · intro a ra body now m
    simp [tryTokenExchange]
  · intro a ra body now m hmsg
    simp [tryTokenExchange, hmsg]
  · intro a login now m
    simp [tryUserApi]
  · intro accounts parseRA now m out uid hout huid
    obtain ⟨out', hout', -, -, -, hsucc⟩ :=
      copilotFetch_spec accounts trAlways401 parseRA now m
    rw [hout] at hout'
    have h : out = out' := by injection hout'
    subst h
    obtain ⟨hresp, -, -, -, hls, hcf⟩ := hsucc uid huid
    refine ⟨?_, hls, hcf⟩
    rw [hresp]
    rfl

/-- Witness for the amended C9 at concrete probe responses and a concrete
401 dispatch over the seeded registry. -/
theorem auth_failure_health_mutation_amended_witness :
    (tryTokenExchange acctA (some ⟨401, none, none⟩) 1000 m3 =
      (some { id := "A", status := ProbeStatus.error, httpStatus := some 401,
              retryAfterMs := none, quotaResetDate := none, username := none,
              method := ProbeMethod.token_exchange }, m3)) ∧
    (rateLimitMsg (some ⟨none, none, none⟩) = false ∧
     tryTokenExchange acctA (some ⟨403, none, some ⟨none, none, none⟩⟩)
        1000 m3 =
      (some { id := "A", status := ProbeStatus.error, httpStatus := some 403,
              retryAfterMs := none, quotaResetDate := none, username := none,
              method := ProbeMethod.token_exchange }, m3)) ∧
    (tryUserApi acctA (some ⟨401, some (some "octocat")⟩) 1000 m3 =
      ({ id := "A", status := ProbeStatus.error, httpStatus := some 401,
         retryAfterMs := none, quotaResetDate := none, username := none,
         method := ProbeMethod.user_api }, m3)) ∧
    (∃ out, copilotFetch [acctA] trAlways401 praNone 1000 m3 = some out ∧
      out.response.status = 401 ∧
      (recordOf out.health "A").last_success = 1000 ∧
      (recordOf out.health "A").consecutive_failures = 0) := by
  refine ⟨auth_failure_health_mutation_amended.1 acctA none none 1000 m3,
    ⟨by decide, auth_failure_health_mutation_amended.2.1 acctA none
      (some ⟨none, none, none⟩) 1000 m3 (by decide)⟩,
    auth_failure_health_mutation_amended.2.2.1 acctA (some (some "octocat"))
      1000 m3, ?_⟩
  have hmap : (copilotFetch [acctA] trAlways401 praNone 1000 m3).map
      (fun o => o.usedId) = some (some "A") := by decide
  rcases hcf : copilotFetch [acctA] trAlways401 praNone 1000 m3 with - | out
  · rw [hcf] at hmap
    exact Option.noConfusion hmap
  · rw [hcf] at hmap
    simp at hmap
    obtain ⟨hst, hls, hcfails⟩ :=
      auth_failure_health_mutation_amended.2.2.2 [acctA] praNone 1000 m3 out
        "A" hcf hmap
    exact ⟨out, rfl, hst, hls, hcfails⟩

/-- C10: `probe_all` returns a map with exactly one entry per input
credential id, in input order; an empty input yields an empty map; each
settled probe outcome is attributed to its own credential id, and a task
that does not complete yields the generic error result for that id only,
without affecting any other entry. -/
theorem probeAll_one_entry_per_credential (accounts : List Account)
    (settled : List (Option ProbeResult))
    (hlen : settled.length = accounts.length) :
    ((probeAll accounts settled).map Prod.fst = accounts.map Account.id) ∧
    (probeAll [] settled = []) ∧
    (∀ (i : Nat) (a : Account) (r : Option ProbeResult),
      accounts[i]? = some a → settled[i]? = some r →
      (probeAll accounts settled)[i]? =
        some (a.id, r.getD (genericError a.id))) := by
  refine ⟨?_, rfl, ?_⟩
  · rw [probeAll, List.map_map]
    have hfst : (Prod.fst ∘ fun p : Account × Option ProbeResult =>
        (p.1.id, p.2.getD (genericError p.1.id))) = (Account.id ∘ Prod.fst) := rfl
    rw [hfst, ← List.map_map, List.map_fst_zip accounts settled hlen.ge]
  · intro i a r ha hr
    rw [probeAll, List.getElem?_map]
    have hz : (accounts.zip settled)[i]? = some (a, r) :=
      List.getElem?_zip_eq_some.mpr ⟨ha, hr⟩
    rw [hz]
    rfl

/-- Witness for C10: two credentials, one completed ok outcome and one
task that did not complete; both entries present and attributed. -/
theorem probeAll_one_entry_per_credential_witness :
    (([some (genericError "X"), none] : List (Option ProbeResult)).length
      = [acctA, acctB].length) ∧
    ((probeAll [acctA, acctB] [some (genericError "X"), none]).map Prod.fst
      = [acctA, acctB].map Account.id) ∧
    ((probeAll [acctA, acctB] [some (genericError "X"), none])[1]?
      = some ("B", genericError "B")) :=
  ⟨by decide,
   (probeAll_one_entry_per_credential [acctA, acctB]
     [some (genericError "X"), none] (by decide)).1,
   (probeAll_one_entry_per_credential [acctA, acctB]
     [some (genericError "X"), none] (by decide)).2.2 1 acctB none
     (by decide) (by decide)⟩
